import Mathlib

/-!
Verification of the core of `btp-ops-copilot`: the log-ingest parser
(`POST /api/ingest`) and the rule-based analyzer (`POST /api/analyze`).

Shallow-embedding conventions:
* JS strings are Lean `String`s; all scanning is done on their `List Char`
  data.  Regex-based scans are translated into explicit left-to-right
  character scanners with the same leftmost-match/backtracking behaviour as
  the JS regexes in the source.
* JS numbers are modelled as exact rationals (`ℚ`).  Integer counts below
  2^53 and comparisons of stored values are exact in binary64, so the
  double/rational distinction is invisible there; the one computation whose
  double rounding is observable — the error-rate arithmetic — is modelled
  with explicit correctly-rounded binary64 operations (`roundDouble`).
* `toUpperCase`/`toLowerCase` are modelled by the ASCII case maps
  (`Char.toUpper`/`Char.toLower`); every token the source matches against is
  ASCII.
* Scanners that continue after a consumed match use an explicit fuel
  argument (fuel = length of the input + 1 always suffices, since every
  step consumes at least one character); this keeps every definition
  structurally recursive and kernel-evaluable.
* The HTTP layer is modelled by `Except String`: a 4xx rejection becomes
  `.error msg`, success becomes `.ok payload`.  On `.error` no payload
  exists, which models "no partial output is produced on failure".
-/

namespace BtpOps

set_option maxRecDepth 8000

/-- The whitespace characters of JS (`\s`, `trim`), restricted to ASCII. -/
def isJsWs (c : Char) : Bool :=
  c = ' ' || c = '\t' || c = '\n' || c = '\r' || c = '\x0b' || c = '\x0c'

/-- `String.prototype.trim` on character lists. -/
def trimChars (l : List Char) : List Char :=
  ((l.dropWhile isJsWs).reverse.dropWhile isJsWs).reverse

/-- ASCII model of `toUpperCase`. -/
def upperStr (s : String) : String := String.mk (s.data.map Char.toUpper)

/-- ASCII model of `toLowerCase`. -/
def lowerStr (s : String) : String := String.mk (s.data.map Char.toLower)

/-- `haystack.includes(pat)` on character lists. -/
def listContains (pat : List Char) : List Char → Bool
  | [] => pat.isEmpty
  | c :: rest => List.isPrefixOf pat (c :: rest) || listContains pat rest

/-- `s.includes(pat)` for strings. -/
def strContains (s pat : String) : Bool := listContains pat.data s.data

/-! ### stripRtf

`stripRtf` in the source applies six sequential global regex replaces to a
string whose trimmed form starts with `{\rtf`.  Each replace is translated
into a fuel-indexed scanner; each scanner step consumes at least one input
character, so fuel `length + 1` reproduces the full pass.
-/

/-- One global pass of `.replace(/\\par[d]?/g, "\n")` (the quantifier is
greedy, so `\pard` is consumed whole when the `d` is present). -/
def replaceParFuel : Nat → List Char → List Char
  | 0, l => l
  | _ + 1, [] => []
  | fuel + 1, c :: rest =>
    if c = '\\' then
      match rest with
      | 'p' :: 'a' :: 'r' :: 'd' :: r2 => '\n' :: replaceParFuel fuel r2
      | 'p' :: 'a' :: 'r' :: r2 => '\n' :: replaceParFuel fuel r2
      | _ => c :: replaceParFuel fuel rest
    else c :: replaceParFuel fuel rest

def isHexDigit (c : Char) : Bool :=
  c.isDigit || ('a' ≤ c && c ≤ 'f') || ('A' ≤ c && c ≤ 'F')

def hexVal (c : Char) : Nat :=
  if c.isDigit then c.toNat - '0'.toNat
  else if 'a' ≤ c && c ≤ 'f' then c.toNat - 'a'.toNat + 10
  else c.toNat - 'A'.toNat + 10

/-- One global pass of `.replace(/\\'([0-9a-fA-F]{2})/g, hex-decode)`. -/
def replaceHexFuel : Nat → List Char → List Char
  | 0, l => l
  | _ + 1, [] => []
  | fuel + 1, c :: rest =>
    if c = '\\' then
      match rest with
      | '\'' :: h1 :: h2 :: r2 =>
        if isHexDigit h1 && isHexDigit h2 then
          Char.ofNat (16 * hexVal h1 + hexVal h2) :: replaceHexFuel fuel r2
        else c :: replaceHexFuel fuel rest
      | _ => c :: replaceHexFuel fuel rest
    else c :: replaceHexFuel fuel rest

/-- The tail of a `/\{\\\*?[^{}]*\}/` group after its opening brace: a
backslash, then a maximal run of non-brace characters (which covers the
optional `*` as well), closed by `}`.  Returns the rest after the group. -/
def groupTail : List Char → Option (List Char)
  | '\\' :: r =>
    match (r.span fun ch => ch ≠ '{' && ch ≠ '}').2 with
    | '}' :: r3 => some r3
    | _ => none
  | _ => none

/-- One global pass of `.replace(/\{\\\*?[^{}]*\}/g, "")`. -/
def removeGroupsFuel : Nat → List Char → List Char
  | 0, l => l
  | _ + 1, [] => []
  | fuel + 1, c :: rest =>
    if c = '{' then
      match groupTail rest with
      | some r2 => removeGroupsFuel fuel r2
      | none => c :: removeGroupsFuel fuel rest
    else c :: removeGroupsFuel fuel rest

def isAsciiLetter (c : Char) : Bool := ('a' ≤ c && c ≤ 'z') || ('A' ≤ c && c ≤ 'Z')

/-- One global pass of `.replace(/\\[a-zA-Z]+\d* ?/g, "")`. -/
def removeCtrlFuel : Nat → List Char → List Char
  | 0, l => l
  | _ + 1, [] => []
  | fuel + 1, c :: rest =>
    if c = '\\' then
      let (ls, r1) := rest.span isAsciiLetter
      if ls.isEmpty then c :: removeCtrlFuel fuel rest
      else
        let r2 := (r1.span Char.isDigit).2
        match r2 with
        | ' ' :: r3 => removeCtrlFuel fuel r3
        | _ => removeCtrlFuel fuel r2
    else c :: removeCtrlFuel fuel rest

/-- One global pass of `.replace(/\n{3,}/g, "\n\n")`. -/
def collapseNlFuel : Nat → List Char → List Char
  | 0, l => l
  | _ + 1, [] => []
  | fuel + 1, c :: rest =>
    if c = '\n' then
      let (nls, r2) := rest.span (· = '\n')
      if 3 ≤ nls.length + 1 then '\n' :: '\n' :: collapseNlFuel fuel r2
      else c :: (nls ++ collapseNlFuel fuel r2)
    else c :: collapseNlFuel fuel rest

/-- `stripRtf` from the source: pass non-RTF text through unchanged,
otherwise strip the RTF control sequences from the trimmed text. -/
def stripRtf (input : String) : String :=
  let trimmed := trimChars input.data
  if List.isPrefixOf "\x7b\\rtf".data trimmed then
    let s1 := replaceParFuel (trimmed.length + 1) trimmed
    let s2 := replaceHexFuel (s1.length + 1) s1
    let s3 := removeGroupsFuel (s2.length + 1) s2
    let s4 := removeCtrlFuel (s3.length + 1) s3
    let s5 := s4.filter fun c => c ≠ '{' && c ≠ '}'
    let s6 := collapseNlFuel (s5.length + 1) s5
    String.mk (trimChars s6)
  else input

/-- The `raw` value of the ingest handler: `stripRtf(String(body?.text ?? "")).trim()`. -/
def rawOf (text : String) : String := String.mk (trimChars (stripRtf text).data)

/-- `raw.split(/\r?\n/)`: a lone `\r` is not a separator. -/
def splitLinesAux : List Char → List Char → List (List Char)
  | [], acc => [acc.reverse]
  | '\r' :: '\n' :: rest, acc => acc.reverse :: splitLinesAux rest []
  | '\n' :: rest, acc => acc.reverse :: splitLinesAux rest []
  | c :: rest, acc => splitLinesAux rest (c :: acc)

/-- `split(/\r?\n/).map(l => l.trim()).filter(Boolean)` applied to `raw`. -/
def linesOfRaw (raw : String) : List String :=
  ((splitLinesAux raw.data []).map fun l => String.mk (trimChars l)).filter
    fun s => s ≠ ""

/-- The trimmed non-empty lines the ingest handler works on. -/
def linesOf (text : String) : List String := linesOfRaw (rawOf text)

/-! ### Key=value extraction (`parseKeyVals`)

The source scans each line with the global regex `/(\w+)=(".*?"|[^\s]+)/g`:
a maximal word-character run, `=`, then either a lazily-quoted token or a
maximal run of non-whitespace characters (the quoted alternative is tried
first).  `kv[key] = val` overwrites, so the last occurrence of a key wins.
-/

/-- JS `\w`: ASCII letters, digits and underscore. -/
def isWordChar (c : Char) : Bool := c.isAlphanum || c = '_'

/-- The lazy body of `".*?"`: the characters up to the next `"`. `.` does not
match a line terminator, so a `\n`/`\r` before the closing quote fails the
quoted alternative. -/
def takeUntilQuote : List Char → Option (List Char × List Char)
  | [] => none
  | '"' :: r => some ([], r)
  | c :: r =>
    if c = '\n' || c = '\r' then none
    else (takeUntilQuote r).map fun p => (c :: p.1, p.2)

/-- The value alternative `".*?"|[^\s]+` at the current position: the matched
token (quotes included) and the rest.  When the quoted alternative fails
(no closing quote), `[^\s]+` still starts at the same `"` character. -/
def kvValue (l : List Char) : Option (List Char × List Char) :=
  let fallback :=
    let p := l.span fun c => !isJsWs c
    if p.1.isEmpty then none else some p
  match l with
  | '"' :: r =>
    match takeUntilQuote r with
    | some (body, r2) => some ('"' :: (body ++ ['"']), r2)
    | none => fallback
  | _ => fallback

/-- `val.startsWith('"') && val.endsWith('"') ? val.slice(1, -1) : val`. -/
def unquote (tok : List Char) : List Char :=
  if tok.head? = some '"' && tok.getLast? = some '"' then (tok.drop 1).dropLast
  else tok

/-- One regex match attempt at the current position: `(\w+)=` then a value.
The word run is maximal, so backtracking inside `\w+` can never succeed. -/
def kvMatchAt (l : List Char) : Option (String × String × List Char) :=
  let p := l.span isWordChar
  if p.1.isEmpty then none
  else
    match p.2 with
    | '=' :: r2 =>
      match kvValue r2 with
      | some (tok, rest) => some (String.mk p.1, String.mk (unquote tok), rest)
      | none => none
    | _ => none

/-- The `exec` loop: on a match continue after it, otherwise advance one
character (leftmost-match scanning).  A successful match consumes at least
three characters, so fuel `length + 1` never runs out. -/
def scanKVFuel : Nat → List Char → List (String × String)
  | 0, _ => []
  | _ + 1, [] => []
  | fuel + 1, c :: rest =>
    match kvMatchAt (c :: rest) with
    | some (k, v, after) => (k, v) :: scanKVFuel fuel after
    | none => scanKVFuel fuel rest

/-- `parseKeyVals` from the source, as the ordered list of `key=value`
matches of the line. -/
def parseKeyVals (l : String) : List (String × String) :=
  scanKVFuel (l.data.length + 1) l.data

/-- `kv[key]`: the value of the last match for `key` (later sets overwrite). -/
def kvGet (kvs : List (String × String)) (key : String) : Option String :=
  ((kvs.filter fun p => p.1 = key).map Prod.snd).getLast?

/-- JS truthiness filter used by `if (kv.service) …`: drops a missing or
empty-string value. -/
def truthyVal : Option String → Option String
  | some v => if v = "" then none else some v
  | none => none

def svcOfLine (l : String) : Option String := truthyVal (kvGet (parseKeyVals l) "service")

def regOfLine (l : String) : Option String := truthyVal (kvGet (parseKeyVals l) "region")

/-! ### Timestamp extraction (`safeIsoFromLine`)

The source regex is `/\d{4}-\d{2}-\d{2}T\d{2}:\d{2}:\d{2}(?:\.\d+)?Z/` —
note the fractional-seconds group is optional.
-/

/-- Consume exactly `n` ASCII digits. -/
def digitN : Nat → List Char → Option (List Char)
  | 0, l => some l
  | _ + 1, [] => none
  | n + 1, c :: r => if c.isDigit then digitN n r else none

/-- Consume one literal character. -/
def litChar (c : Char) : List Char → Option (List Char)
  | [] => none
  | c' :: r => if c' = c then some r else none

/-- The fixed 19-character skeleton `\d{4}-\d{2}-\d{2}T\d{2}:\d{2}:\d{2}`. -/
def isoSkeleton (l : List Char) : Option (List Char) :=
  (digitN 4 l).bind fun a => (litChar '-' a).bind fun b =>
  (digitN 2 b).bind fun c => (litChar '-' c).bind fun d =>
  (digitN 2 d).bind fun e => (litChar 'T' e).bind fun f =>
  (digitN 2 f).bind fun g => (litChar ':' g).bind fun h =>
  (digitN 2 h).bind fun i => (litChar ':' i).bind fun j =>
  digitN 2 j

/-- `(?:\.\d+)?Z` after the skeleton: the number of characters it consumes.
When a `.` is present it must carry at least one digit and then `Z`
(backtracking to the no-fraction alternative would need the `.` itself to
be `Z`, which is impossible). -/
def isoFracZ : List Char → Option Nat
  | '.' :: r =>
    let p := r.span Char.isDigit
    if p.1.isEmpty then none
    else
      match p.2 with
      | 'Z' :: _ => some (1 + p.1.length + 1)
      | _ => none
  | 'Z' :: _ => some 1
  | _ => none

/-- A whole-regex match starting exactly at the head of `l`: the matched
substring. -/
def isoMatchAt (l : List Char) : Option (List Char) :=
  match isoSkeleton l with
  | some r =>
    match isoFracZ r with
    | some k => some (l.take (19 + k))
    | none => none
  | none => none

/-- Leftmost-match scan of a line. -/
def isoScan : List Char → Option (List Char)
  | [] => none
  | c :: rest =>
    match isoMatchAt (c :: rest) with
    | some m => some m
    | none => isoScan rest

/-- `safeIsoFromLine` from the source. -/
def safeIsoFromLine (l : String) : Option String := (isoScan l.data).map String.mk

/-- The timestamps the ingest loop collects, in document order. -/
def timestampsOf (text : String) : List String :=
  (linesOf text).filterMap safeIsoFromLine

/-! ### `Number(string)` (modelled subset)

`getNum` and the HTTP-status check coerce strings with JS `Number`.  We
model the decimal forms (optional sign, integer/fraction digits, optional
exponent, surrounding whitespace, empty string ↦ 0).  JS additionally
accepts hex/octal/binary literals and `Infinity`; those forms do not occur
in this repository's data and are mapped to `none` (= non-numeric), which
`getNum` then treats as 0 exactly like a non-finite result. -/

def digitsVal (ds : List Char) : Nat :=
  ds.foldl (fun a c => 10 * a + (c.toNat - '0'.toNat)) 0

/-- `Number(s)` as `some` rational when finite and modelled, else `none`. -/
def jsNumber (s : String) : Option ℚ :=
  let t := trimChars s.data
  if t.isEmpty then some 0
  else
    let signed : ℚ × List Char :=
      match t with
      | '-' :: r => (-1, r)
      | '+' :: r => (1, r)
      | _ => (1, t)
    let ip := signed.2.span Char.isDigit
    let frac : List Char × List Char :=
      match ip.2 with
      | '.' :: r => r.span Char.isDigit
      | _ => ([], ip.2)
    let hadDot : Bool := match ip.2 with | '.' :: _ => true | _ => false
    let rest1 := if hadDot then frac.2 else ip.2
    let expPart : Option (Bool × List Char × List Char) :=
      match rest1 with
      | 'e' :: r =>
        match r with
        | '-' :: r2 => let p := r2.span Char.isDigit; some (true, p.1, p.2)
        | '+' :: r2 => let p := r2.span Char.isDigit; some (false, p.1, p.2)
        | _ => let p := r.span Char.isDigit; some (false, p.1, p.2)
      | 'E' :: r =>
        match r with
        | '-' :: r2 => let p := r2.span Char.isDigit; some (true, p.1, p.2)
        | '+' :: r2 => let p := r2.span Char.isDigit; some (false, p.1, p.2)
        | _ => let p := r.span Char.isDigit; some (false, p.1, p.2)
      | _ => none
    let ok : Bool :=
      (!ip.1.isEmpty || (hadDot && !frac.1.isEmpty)) &&
      (match expPart with
       | some (_, ds, rest2) => !ds.isEmpty && rest2.isEmpty
       | none => rest1.isEmpty)
    if ok then
      let mant : ℚ :=
        (digitsVal ip.1 : ℚ) + (digitsVal frac.1 : ℚ) / ((10 : ℚ) ^ frac.1.length)
      let scaled : ℚ :=
        match expPart with
        | some (neg, ds, _) =>
          if neg then mant / ((10 : ℚ) ^ digitsVal ds)
          else mant * ((10 : ℚ) ^ digitsVal ds)
        | none => mant
      some (signed.1 * scaled)
    else none

/-- The status-like field: `kv.httpStatus ?? kv.status ?? ""` (nullish
coalescing: an empty string does not fall through). -/
def hsOf (l : String) : String :=
  match kvGet (parseKeyVals l) "httpStatus" with
  | some v => v
  | none => (kvGet (parseKeyVals l) "status").getD ""

/-- `!Number.isNaN(hsNum) && hsNum >= 500 && hsNum <= 599`. -/
def lineIs5xx (l : String) : Bool :=
  match jsNumber (hsOf l) with
  | some n => decide (500 ≤ n ∧ n ≤ 599)
  | none => false

/-! ### Per-line level classification

`if (upper.includes(" ERROR ")) errors++; else if (" WARN ") …; else if
(" INFO ") …` — one counter at most per line, ERROR before WARN before
INFO.  The TIMEOUT counter is a separate, unconditional check.
-/

def lineHasUpper (l pat : String) : Bool := strContains (upperStr l) pat

def lineIsError (l : String) : Bool := lineHasUpper l " ERROR "

def lineIsWarn (l : String) : Bool := !lineIsError l && lineHasUpper l " WARN "

def lineIsInfo (l : String) : Bool :=
  !lineIsError l && !lineHasUpper l " WARN " && lineHasUpper l " INFO "

def lineHasTimeout (l : String) : Bool := lineHasUpper l "TIMEOUT"

/-! ### Counting map (`Map` + `counts.set(v, (counts.get(v) ?? 0) + 1)`)

A JS `Map` keeps keys in first-insertion order; `set` on an existing key
updates it in place.  Modelled as an association list: an existing key is
incremented in place, a new key is appended. -/

def bump (m : List (String × Nat)) (v : String) : List (String × Nat) :=
  if v ∈ m.map Prod.fst then
    m.map fun p => if p.1 = v then (p.1, p.2 + 1) else p
  else m ++ [(v, 1)]

/-- The contents of the counting map after inserting `values` in order. -/
def countsOf (values : List String) : List (String × Nat) :=
  values.foldl bump []

/-- The `best`/`bestCount` selection loop: first entry with a strictly
greater count than everything before it wins. -/
def pickBest (m : List (String × Nat)) (init : String × Nat) : String × Nat :=
  m.foldl (fun acc p => if acc.2 < p.2 then p else acc) init

/-- `pickMostCommon` from the source: `best` starts at `values[0]` with
count 0, the entry loop keeps the first strict maximum, and a falsy
(empty-string) winner falls back (`best || fallback`). -/
def pickMostCommon (values : List String) (fallback : String) : String :=
  match values with
  | [] => fallback
  | v0 :: _ =>
    let best := pickBest (countsOf values) (v0, 0)
    if best.1 = "" then fallback else best.1

/-! ### Pattern heuristics -/

/-- The tags one line contributes, in the source's check order.  A line may
contribute several tags. -/
def lineTags (l : String) : List String :=
  let u := upperStr l
  (if strContains u "TOKEN_VALIDATION" then ["token_validation_slow"] else []) ++
  (if strContains u "UPSTREAM TIMEOUT" then ["upstream_timeout"] else []) ++
  (if strContains u "DOWNSTREAM" then ["downstream_instability"] else []) ++
  (if strContains u "CIRCUIT BREAKER" then ["circuit_breaker_open"] else []) ++
  (if strContains u "NO SCALE EVENT" || strContains u "MAX REACHED" then
    ["autoscaler_max_reached"] else [])

/-- The pattern-counter map built over all lines in order. -/
def patternCountsOf (text : String) : List (String × Nat) :=
  countsOf ((linesOf text).map lineTags).flatten

/-- Stable insertion into a count-descending list: the inserted element
(earlier in the original order) goes before every element with a count
less than or equal to its own. -/
def insertDesc (x : String × Nat) : List (String × Nat) → List (String × Nat)
  | [] => [x]
  | y :: ys => if y.2 ≤ x.2 then x :: y :: ys else y :: insertDesc x ys

/-- `.sort((a, b) => b.count - a.count)`: JS `Array.prototype.sort` is
stable, and a stable count-descending sort is unique, so stable insertion
sort is an exact model. -/
def sortCountDesc : List (String × Nat) → List (String × Nat)
  | [] => []
  | x :: xs => insertDesc x (sortCountDesc xs)

/-! ### The parsed incident and the ingest handler -/

/-- `ParsedIncident`: the `incident` object of a successful ingest response.
`derivedSignals` is flattened into its fixed keys; `timeWindow.start/end`
are `startTs`/`endTs`. `error_rate_pct` is the one non-integer signal. -/
structure ParsedIncident where
  serviceGuess : String
  regionGuess : String
  startTs : Option String
  endTs : Option String
  topPatterns : List (String × Nat)
  sampleLines : List String
  log_lines : Nat
  errors : Nat
  warns : Nat
  infos : Nat
  timeouts : Nat
  http_5xx : Nat
  error_rate_pct : ℚ
deriving DecidableEq, Repr

/-- The service values pushed by the loop (`if (kv.service) services.push`). -/
def servicesOf (text : String) : List String := (linesOf text).filterMap svcOfLine

/-- The region values pushed by the loop. -/
def regionsOf (text : String) : List String := (linesOf text).filterMap regOfLine

/-- `Math.round` as the ECMAScript spec defines it: the integral value
closest to the (exact) value of the argument, ties rounding toward +∞:
`⌊q + 1/2⌋` in exact arithmetic. -/
def jsRound (q : ℚ) : ℤ := Rat.floor (q + 1 / 2)

/-! ### Binary64 rounding, for the error-rate computation

The source computes `Math.round((errors / logLines) * 1000) / 10` on
IEEE-754 binary64 numbers, and that rounding is observable: e.g. for
201 errors over 400 lines the double product is 502.49999999999994, so
the program rounds to 502, not to the 503 of exact arithmetic.
`roundDouble` rounds an exact rational to the nearest binary64 value
(round to nearest, ties to even, 53 significant bits) in the normal range;
every value this computation can produce is normal (the counts are JS array
lengths, far below 2^53, the ratio lies in [0, 1] and all later values in
[0, 1000]), so no overflow or subnormal handling is needed.  IEEE division
and multiplication are correctly rounded, so each JS operation is modelled
as the exact operation followed by `roundDouble`; `Math.round` itself is
specified on the exact value of its double argument and its integral result
here is far below 2^53, hence exact.
-/

/-- `⌊log2 n⌋` for positive `n`, by fuel-counted halving (fuel `n` always
suffices; kept fuel-based so that the kernel can evaluate it). -/
def natLog2F : Nat → Nat → Nat
  | 0, _ => 0
  | fuel + 1, n => if 2 ≤ n then natLog2F fuel (n / 2) + 1 else 0

def natLog2 (n : Nat) : Nat := natLog2F n n

/-- `2 ^ e` as a rational, for an integer exponent. -/
def qpow2 (e : Int) : ℚ :=
  if 0 ≤ e then ((2 ^ e.toNat : Nat) : ℚ) else 1 / ((2 ^ (-e).toNat : Nat) : ℚ)

/-- Round a rational to the nearest integer, ties to even. -/
def rte (q : ℚ) : Int :=
  let f := Rat.floor q
  let r := q - (f : ℚ)
  if r < 1 / 2 then f
  else if 1 / 2 < r then f + 1
  else if f % 2 = 0 then f else f + 1

/-- `⌊log2 q⌋` for a positive rational: `⌊log2 num⌋ - ⌊log2 den⌋` is off by
at most one, fixed up by a comparison. -/
def floorLog2Q (q : ℚ) : Int :=
  let e0 : Int := (natLog2 q.num.natAbs : Int) - (natLog2 q.den : Int)
  if qpow2 e0 ≤ q then e0 else e0 - 1

/-- The nearest binary64 value (round to nearest, ties to even; normal
range): scale to a 53-bit mantissa, round, scale back. -/
def roundDouble (q : ℚ) : ℚ :=
  if q = 0 then 0
  else
    let s : ℚ := if 0 < q then 1 else -1
    let a := s * q
    let p : Int := floorLog2Q a - 52
    s * ((rte (a / qpow2 p) : ℚ) * qpow2 p)

/-- `Math.round((errors / logLines) * 1000) / 10` of the source, evaluated
in binary64: both counts are exact doubles, the division and the
multiplication are correctly rounded, `Math.round` is exact, and the final
division by 10 is correctly rounded. -/
def errorRatePctD (e n : Nat) : ℚ :=
  let eD := roundDouble (e : ℚ)
  let nD := roundDouble (n : ℚ)
  let ratio := roundDouble (eD / nD)
  let prod := roundDouble (ratio * 1000)
  roundDouble ((jsRound prod : ℚ) / 10)

/-- The incident record a successful ingest builds (the body of the handler
after the empty-text check). -/
def incidentOf (text : String) : ParsedIncident :=
  let lines := linesOf text
  let errors := lines.countP lineIsError
  let logLines := lines.length
  {
      serviceGuess := pickMostCommon (servicesOf text) "BTP Service (unknown)"
      regionGuess := pickMostCommon (regionsOf text) "unknown"
      startTs := (timestampsOf text).head?
      endTs := (timestampsOf text).getLast?
      topPatterns := (sortCountDesc (patternCountsOf text)).take 6
      sampleLines := lines.take 10
      log_lines := logLines
      errors := errors
      warns := lines.countP lineIsWarn
      infos := lines.countP lineIsInfo
      timeouts := lines.countP lineHasTimeout
      http_5xx := lines.countP lineIs5xx
      error_rate_pct := if 0 < logLines then errorRatePctD errors logLines else 0
    }

/-- The ingest handler (`POST /api/ingest`): `.error` models the 4xx
rejection (the handler's catch-all 5xx path is unreachable for the pure
computation modelled here). -/
def ingest (text : String) : Except String ParsedIncident :=
  if rawOf text = "" then .error "No text provided"
  else .ok (incidentOf text)

/-! ### The analyzer (`POST /api/analyze`) -/

/-- A JSON `number | string` signal value.  JSON numbers are always finite,
so the `typeof v === "number"` branch of `getNum` never sees a non-finite
number; modelled as an exact rational. -/
inductive JsVal where
  | num (q : ℚ)
  | str (s : String)
deriving DecidableEq, Repr

/-- The analyzer's input after JSON decoding (`Input` in the source).
`logs := none` models an absent or non-array `logs` field, which the
handler replaces by `[]`. -/
structure AnalyzeInput where
  scenario : Option String
  service : Option String
  region : Option String
  signals : List (String × JsVal)
  logs : Option (List String)

/-- Association-list lookup on string keys (a JSON object has unique keys). -/
def lookupSig (key : String) : List (String × JsVal) → Option JsVal
  | [] => none
  | (k, v) :: rest => if k = key then some v else lookupSig key rest

/-- `getNum` from the source: numeric passthrough, `Number(string)` parse,
non-finite (and unmodelled/absent) results become 0. -/
def getNum (signals : List (String × JsVal)) (key : String) : ℚ :=
  match lookupSig key signals with
  | some (.num q) => q
  | some (.str s) => (jsNumber s).getD 0
  | none => 0

/-- `AnalysisOutput` (the `output` object).  `signalHighlights` — a fixed
formatting of the six signal values into display strings — is presentation
only and outside every claim, so it is not carried here. -/
structure AnalysisOutput where
  severity : String
  confidence : String
  summary : String
  rootCause : String
  actions : List String
  businessImpact : String
  btpNextSteps : List String
  executiveOneLiner : String
deriving DecidableEq, Repr

/-! The analyzer's fixed strings, verbatim from the source. -/

def clauseTokenSlow : String :=
  "authentication token validation latency (XSUAA/IdP path)"

def clauseUpstream : String :=
  "upstream dependency timeouts amplifying end-user auth latency"

def clauseCircuit : String :=
  "circuit breaker activation indicates repeated downstream failures"

def clauseAutoscaler : String :=
  "capacity ceiling reached (autoscaler max) during demand spike"

def rootCauseFallback : String :=
  "Most likely driver: dependency latency and intermittent gateway errors under load."

def actionsList : List String :=
  ["Confirm blast radius (tenant(s), routes, and time window) and set incident bridge + owner.",
   "Correlate spikes with recent deployments/config changes and dependency health in the same region.",
   "Add/validate SLOs: auth latency (p95), 5xx rate, and upstream timeout rate; alert on burn-rate thresholds.",
   "Raise or re-tune autoscaler limits and validate backpressure/timeouts to prevent cascading failure.",
   "Implement a short-term mitigation (fallback, cache, or retry policy) and a runbook for repeatability."]

def btpNextStepsList : List String :=
  ["Enable/confirm central log and metric collection for the involved subaccount/space and export to a single dashboard.",
   "Create an SLO panel for Auth (XSUAA) latency and HTTP 5xx with alerting to the on-call channel.",
   "Add release correlation tags (app version, deployment id) to logs to speed MTTR.",
   "Define an incident runbook: triage checklist, escalation paths, rollback criteria, and comms template.",
   "Introduce cost guardrails (autoscaling + quota checks) to avoid overcorrecting with spend."]

def summaryHigh : String :=
  "Signals show a material deviation from normal performance, including elevated timeouts and 5xx responses, likely impacting user authentication and downstream API reliability."

def summaryMedium : String :=
  "Signals indicate intermittent degradation (timeouts/5xx) that could escalate under load and affect user-facing flows."

def summaryLow : String :=
  "Signals suggest minor anomalies; monitor closely and validate baseline thresholds."

def impactHigh : String :=
  "High risk of SLA breach and customer-facing disruption (login failures / failed API calls), with potential revenue and reputational impact if not mitigated quickly."

def impactMedium : String :=
  "Moderate risk of incident escalation and partial customer impact; proactive remediation will reduce MTTR and avoid repeated occurrences."

def impactLow : String :=
  "Low immediate customer impact; use the event to harden detection and operational guardrails."

def onelinerHigh : String :=
  "We are seeing elevated auth latency and 5xx errors consistent with dependency timeouts under load; containment and scaling guardrails are required immediately."

def onelinerMedium : String :=
  "Early indicators of reliability drift (timeouts/5xx); correlating with releases and tuning scaling/alerts will prevent escalation."

def onelinerLow : String :=
  "Minor anomalies detected; we will validate baselines and strengthen alerting to prevent future drift."

/-- The analysis output a successful analyze builds (the body of the handler
after the empty-logs check).  The unused `scenario`/`service`/`region`
defaults of the source do not feed the output and are not recomputed here. -/
def outputOf (input : AnalyzeInput) : AnalysisOutput :=
  let logs := input.logs.getD []
  let errors := getNum input.signals "errors"
  let timeouts := getNum input.signals "timeouts"
  let http5xx := getNum input.signals "http_5xx"
  let errorRate := getNum input.signals "error_rate_pct"
  let severity : String :=
    if 2 ≤ http5xx ∨ 2 ≤ timeouts ∨ 3 ≤ errorRate then "High"
    else if 1 ≤ http5xx ∨ 1 ≤ timeouts ∨ 1 ≤ errors then "Medium"
    else "Low"
  let confidence1 : String :=
    if 6 ≤ logs.length ∧ 2 ≤ timeouts + http5xx + errors then "High" else "Medium"
  let confidence : String := if logs.length < 3 then "Low" else confidence1
  let hasTokenSlow := logs.any fun l => strContains (lowerStr l) "token_validation"
  let hasUpstreamTimeout := logs.any fun l => strContains (lowerStr l) "upstream timeout"
  let hasCircuitBreaker := logs.any fun l => strContains (lowerStr l) "circuit breaker"
  let hasAutoscalerMax := logs.any fun l => strContains (lowerStr l) "no scale event"
  let rootCauseParts : List String :=
    (if hasTokenSlow then [clauseTokenSlow] else []) ++
    (if hasUpstreamTimeout then [clauseUpstream] else []) ++
    (if hasCircuitBreaker then [clauseCircuit] else []) ++
    (if hasAutoscalerMax then [clauseAutoscaler] else [])
  let rootCause : String :=
    if rootCauseParts = [] then rootCauseFallback
    else "Most likely driver: " ++ String.intercalate "; " rootCauseParts ++ "."
  {
    severity := severity
    confidence := confidence
    summary :=
      if severity = "High" then summaryHigh
      else if severity = "Medium" then summaryMedium else summaryLow
    rootCause := rootCause
    actions := actionsList
    businessImpact :=
      if severity = "High" then impactHigh
      else if severity = "Medium" then impactMedium else impactLow
    btpNextSteps := btpNextStepsList
    executiveOneLiner :=
      if severity = "High" then onelinerHigh
      else if severity = "Medium" then onelinerMedium else onelinerLow
  }

/-- The analyze handler: `.error` models the 4xx rejection. -/
def analyze (input : AnalyzeInput) : Except String AnalysisOutput :=
  if input.logs.getD [] = [] then .error "No logs provided"
  else .ok (outputOf input)

/-! ### The page's ingest → analyze handoff

The UI (`setTelemetry` then `generate`) posts `service := serviceGuess`,
`region := regionGuess`, `signals := derivedSignals`, `logs := sampleLines`.
-/

/-- `derivedSignals` as the JSON object the analyzer receives. -/
def signalsOfIncident (inc : ParsedIncident) : List (String × JsVal) :=
  [("log_lines", .num (inc.log_lines : ℚ)),
   ("errors", .num (inc.errors : ℚ)),
   ("warns", .num (inc.warns : ℚ)),
   ("infos", .num (inc.infos : ℚ)),
   ("timeouts", .num (inc.timeouts : ℚ)),
   ("http_5xx", .num (inc.http_5xx : ℚ)),
   ("error_rate_pct", .num inc.error_rate_pct)]

/-- The analyze payload the page builds from a parsed incident. -/
def inputOfIncident (inc : ParsedIncident) : AnalyzeInput :=
  { scenario := some "Uploaded Incident"
    service := some inc.serviceGuess
    region := some inc.regionGuess
    signals := signalsOfIncident inc
    logs := some inc.sampleLines }

/-- The two-stage pipeline: parse, then analyze the parsed incident. -/
def pipelineOut (text : String) : Except String (Except String AnalysisOutput) :=
  (ingest text).map fun inc => analyze (inputOfIncident inc)

/-- The severity the pipeline ends with, when both stages succeed. -/
def sevOfPipeline (text : String) : Option String :=
  match pipelineOut text with
  | .ok (.ok out) => some out.severity
  | _ => none

/-- The root-cause sentence the pipeline ends with, when both stages succeed. -/
def rcOfPipeline (text : String) : Option String :=
  match pipelineOut text with
  | .ok (.ok out) => some out.rootCause
  | _ => none

/-! ### Spec-side definitions

These follow the spec's words, to be compared with the source-derived
definitions above in refinement-style claims.
-/

/-- The distinct values of a list in first-encounter order (`seen` carries
the values already emitted). -/
def firstOccsAux (seen : List String) : List String → List String
  | [] => []
  | a :: l => if a ∈ seen then firstOccsAux seen l else a :: firstOccsAux (a :: seen) l

/-- The distinct values of a list, in the order each first appears. -/
def firstOccs (l : List String) : List String := firstOccsAux [] l

/-- Modelled from the spec: "pick the most frequent (first-seen value wins
ties)" — the first value, in first-encounter order, whose multiplicity is
maximal; `none` when the list is empty. -/
def mostCommonSpec (values : List String) : Option String :=
  (firstOccs values).find? fun k =>
    values.all fun v => decide (values.count v ≤ values.count k)

/-- Modelled from the spec: "an ISO-8601-with-milliseconds-and-Z-suffix
pattern" — the source's timestamp shape with the fractional-seconds part
required rather than optional. -/
def isoMillisFracZ : List Char → Option Nat
  | '.' :: r =>
    let p := r.span Char.isDigit
    if p.1.isEmpty then none
    else
      match p.2 with
      | 'Z' :: _ => some (1 + p.1.length + 1)
      | _ => none
  | _ => none

/-- A with-milliseconds match starting at the head of `l`. -/
def isoMillisMatchAt (l : List Char) : Option (List Char) :=
  match isoSkeleton l with
  | some r =>
    match isoMillisFracZ r with
    | some k => some (l.take (19 + k))
    | none => none
  | none => none

/-- Leftmost with-milliseconds match of a line. -/
def isoMillisScan : List Char → Option (List Char)
  | [] => none
  | c :: rest =>
    match isoMillisMatchAt (c :: rest) with
    | some m => some m
    | none => isoMillisScan rest

/-- A line's first with-milliseconds timestamp, per the spec's wording. -/
def isoMillisFromLine (l : String) : Option String :=
  (isoMillisScan l.data).map String.mk

/-! ### Concrete fixtures used by witnesses and counterexamples -/

/-- The spec's end-to-end scenario input, first line. -/
def c1Line1 : String :=
  "2026-01-06T13:01:02.114Z service=\"auth\" region=\"eu10\" ERROR upstream timeout"

/-- The spec's end-to-end scenario input, second line. -/
def c1Line2 : String :=
  "2026-01-06T13:02:00.000Z service=\"auth\" region=\"eu10\" httpStatus=503 circuit breaker open"

/-- The spec's end-to-end scenario input. -/
def c1Text : String := c1Line1 ++ "\n" ++ c1Line2

/-- A line counted by the `ERROR` classifier. -/
def c4ErrLine : String := "x ERROR y"

/-- A line counted by no classifier. -/
def c4OkLine : String := "z"

/-- 201 `ERROR` lines followed by 199 plain lines (no trailing newline), as
raw character data: an input on which the binary64 error-rate computation
and its exact-arithmetic reading disagree. -/
def c4Data : List Char :=
  (List.replicate 201 (c4ErrLine.data ++ ['\n'])).flatten ++
    ((List.replicate 198 (c4OkLine.data ++ ['\n'])).flatten ++ c4OkLine.data)

def c4Text : String := String.mk c4Data

def emptyIncident : ParsedIncident :=
  { serviceGuess := "", regionGuess := "", startTs := none, endTs := none,
    topPatterns := [], sampleLines := [], log_lines := 0, errors := 0,
    warns := 0, infos := 0, timeouts := 0, http_5xx := 0, error_rate_pct := 0 }

/-- The payload of a successful ingest response (for instantiating theorems
at concrete inputs). -/
def getInc (r : Except String ParsedIncident) : ParsedIncident :=
  match r with
  | .ok i => i
  | .error _ => emptyIncident

def emptyOutput : AnalysisOutput :=
  { severity := "", confidence := "", summary := "", rootCause := "",
    actions := [], businessImpact := "", btpNextSteps := [],
    executiveOneLiner := "" }

/-- The payload of a successful analyze response. -/
def getOut (r : Except String AnalysisOutput) : AnalysisOutput :=
  match r with
  | .ok o => o
  | .error _ => emptyOutput

/-- The High-severity condition of the analyzer, on coerced signal values. -/
abbrev highCond (inp : AnalyzeInput) : Prop :=
  2 ≤ getNum inp.signals "http_5xx" ∨ 2 ≤ getNum inp.signals "timeouts" ∨
    3 ≤ getNum inp.signals "error_rate_pct"

/-- The Medium-severity condition of the analyzer. -/
abbrev medCond (inp : AnalyzeInput) : Prop :=
  1 ≤ getNum inp.signals "http_5xx" ∨ 1 ≤ getNum inp.signals "timeouts" ∨
    1 ≤ getNum inp.signals "errors"

/-- The confidence-upgrade condition of the analyzer. -/
abbrev confHighCond (inp : AnalyzeInput) : Prop :=
  6 ≤ (inp.logs.getD []).length ∧
    2 ≤ getNum inp.signals "timeouts" + getNum inp.signals "http_5xx" +
      getNum inp.signals "errors"

/-! ### Basic facts about the two handlers -/

lemma ingest_ok_iff {text : String} {inc : ParsedIncident} :
    ingest text = Except.ok inc ↔ rawOf text ≠ "" ∧ inc = incidentOf text := by
  unfold ingest
  split <;> simp_all [eq_comm]

lemma ingest_error_iff {text : String} :
    ingest text = Except.error "No text provided" ↔ rawOf text = "" := by
  unfold ingest
  split <;> simp_all

lemma analyze_ok_iff {inp : AnalyzeInput} {out : AnalysisOutput} :
    analyze inp = Except.ok out ↔ inp.logs.getD [] ≠ [] ∧ out = outputOf inp := by
  unfold analyze
  split
  · rename_i hnil
    constructor
    · intro h
      exact absurd h (by simp)
    · rintro ⟨hne, -⟩
      exact absurd hnil hne
  · rename_i hne
    constructor
    · intro h
      exact ⟨hne, (((Except.ok.injEq _ _).mp h)).symm⟩
    · rintro ⟨-, rfl⟩
      rfl

lemma analyze_error_iff {inp : AnalyzeInput} :
    analyze inp = Except.error "No logs provided" ↔ inp.logs.getD [] = [] := by
  unfold analyze
  split <;> simp_all

lemma incidentOf_serviceGuess (text : String) :
    (incidentOf text).serviceGuess = pickMostCommon (servicesOf text) "BTP Service (unknown)" := rfl

lemma incidentOf_regionGuess (text : String) :
    (incidentOf text).regionGuess = pickMostCommon (regionsOf text) "unknown" := rfl

lemma incidentOf_startTs (text : String) :
    (incidentOf text).startTs = (timestampsOf text).head? := rfl

lemma incidentOf_endTs (text : String) :
    (incidentOf text).endTs = (timestampsOf text).getLast? := rfl

lemma incidentOf_topPatterns (text : String) :
    (incidentOf text).topPatterns = (sortCountDesc (patternCountsOf text)).take 6 := by
  with_unfolding_all rfl

lemma incidentOf_log_lines (text : String) :
    (incidentOf text).log_lines = (linesOf text).length := rfl

lemma incidentOf_errors (text : String) :
    (incidentOf text).errors = (linesOf text).countP lineIsError := rfl

lemma incidentOf_warns (text : String) :
    (incidentOf text).warns = (linesOf text).countP lineIsWarn := rfl

lemma incidentOf_infos (text : String) :
    (incidentOf text).infos = (linesOf text).countP lineIsInfo := rfl

lemma incidentOf_timeouts (text : String) :
    (incidentOf text).timeouts = (linesOf text).countP lineHasTimeout := rfl

lemma incidentOf_error_rate_pct (text : String) :
    (incidentOf text).error_rate_pct =
      if 0 < (linesOf text).length then
        errorRatePctD ((linesOf text).countP lineIsError) (linesOf text).length
      else 0 := by
  with_unfolding_all rfl

lemma outputOf_severity (inp : AnalyzeInput) :
    (outputOf inp).severity =
      if highCond inp then "High" else if medCond inp then "Medium" else "Low" := rfl

lemma outputOf_confidence (inp : AnalyzeInput) :
    (outputOf inp).confidence =
      if (inp.logs.getD []).length < 3 then "Low"
      else if confHighCond inp then "High" else "Medium" := rfl

lemma pickMostCommon_ne_empty (values : List String) (fb : String) (hfb : fb ≠ "") :
    pickMostCommon values fb ≠ "" := by
  match values with
  | [] => exact hfb
  | v0 :: tl =>
    simp only [pickMostCommon]
    split
    · exact hfb
    · assumption

/-! ### Evaluating the parser on the 400-line input `c4Text`

The input is long, so the line split and the counters are computed
structurally (blocks of identical lines) rather than by brute evaluation.
-/

lemma dropWhile_head_false {p : Char → Bool} {l : List Char}
    (h : ∀ c, l.head? = some c → p c = false) : List.dropWhile p l = l := by
  cases l with
  | nil => rfl
  | cons c r => simp [List.dropWhile_cons, h c rfl]

lemma trimChars_of_ends {l : List Char}
    (h1 : ∀ c, l.head? = some c → isJsWs c = false)
    (h2 : ∀ c, l.getLast? = some c → isJsWs c = false) :
    trimChars l = l := by
  have h3 : List.dropWhile isJsWs l = l := dropWhile_head_false h1
  have h4 : List.dropWhile isJsWs l.reverse = l.reverse :=
    dropWhile_head_false fun c hc => h2 c (by rwa [List.head?_reverse] at hc)
  unfold trimChars
  rw [h3, h4, List.reverse_reverse]

lemma isPrefixOf_head_ne {a b : Char} {as l : List Char}
    (hb : l.head? = some b) (hne : (a == b) = false) :
    List.isPrefixOf (a :: as) l = false := by
  cases l with
  | nil => simp at hb
  | cons c r =>
    simp only [List.head?_cons, Option.some.injEq] at hb
    subst hb
    simp [List.isPrefixOf, hne]

lemma filter_ne_empty_replicate (n : Nat) (s : String) (h : s ≠ "") :
    (List.replicate n s).filter (fun t => t ≠ "") = List.replicate n s := by
  rw [List.filter_replicate, if_pos (by simpa using h)]

lemma c4_err_step (tail : List Char) :
    splitLinesAux (c4ErrLine.data ++ '\n' :: tail) [] =
      c4ErrLine.data :: splitLinesAux tail [] := rfl

lemma c4_ok_step (tail : List Char) :
    splitLinesAux (c4OkLine.data ++ '\n' :: tail) [] =
      c4OkLine.data :: splitLinesAux tail [] := rfl

lemma c4_err_block (n : Nat) (tail : List Char) :
    splitLinesAux ((List.replicate n (c4ErrLine.data ++ ['\n'])).flatten ++ tail) [] =
      List.replicate n c4ErrLine.data ++ splitLinesAux tail [] := by
  induction n generalizing tail with
  | zero => simp
  | succ k ih =>
    simp only [List.replicate_succ, List.flatten_cons, List.append_assoc,
      List.singleton_append, List.cons_append, List.nil_append]
    rw [c4_err_step, ih]

lemma c4_ok_block (n : Nat) (tail : List Char) :
    splitLinesAux ((List.replicate n (c4OkLine.data ++ ['\n'])).flatten ++ tail) [] =
      List.replicate n c4OkLine.data ++ splitLinesAux tail [] := by
  induction n generalizing tail with
  | zero => simp
  | succ k ih =>
    simp only [List.replicate_succ, List.flatten_cons, List.append_assoc,
      List.singleton_append, List.cons_append, List.nil_append]
    rw [c4_ok_step, ih]

lemma c4_split :
    splitLinesAux c4Data [] =
      List.replicate 201 c4ErrLine.data ++ List.replicate 199 c4OkLine.data := by
  unfold c4Data
  rw [c4_err_block, c4_ok_block,
    show splitLinesAux c4OkLine.data [] = [c4OkLine.data] from rfl,
    ← List.replicate_succ']

lemma c4_head : c4Data.head? = some 'x' := rfl

lemma c4_data_concat :
    c4Data = ((List.replicate 201 (c4ErrLine.data ++ ['\n'])).flatten ++
      (List.replicate 198 (c4OkLine.data ++ ['\n'])).flatten) ++ ['z'] := by
  unfold c4Data
  rw [show c4OkLine.data = ['z'] from rfl, List.append_assoc]

lemma c4_last : c4Data.getLast? = some 'z' := by
  rw [c4_data_concat, List.getLast?_concat]

lemma c4_trim : trimChars c4Text.data = c4Text.data := by
  refine trimChars_of_ends ?_ ?_
  · intro c hc
    rw [show c4Text.data = c4Data from rfl, c4_head] at hc
    injection hc with h
    subst h
    rfl
  · intro c hc
    rw [show c4Text.data = c4Data from rfl, c4_last] at hc
    injection hc with h
    subst h
    rfl

lemma c4_strip : stripRtf c4Text = c4Text := by
  have hpre : List.isPrefixOf "\x7b\\rtf".data (trimChars c4Text.data) = false := by
    rw [c4_trim, show ("\x7b\\rtf" : String).data = '\x7b' :: "\\rtf".data from rfl]
    exact isPrefixOf_head_ne (b := 'x')
      (by rw [show c4Text.data = c4Data from rfl]; exact c4_head) (by decide)
  unfold stripRtf
  simp only [hpre, Bool.false_eq_true, if_false]

lemma c4_raw : rawOf c4Text = c4Text := by
  unfold rawOf
  rw [c4_strip, c4_trim]

lemma c4_lines :
    linesOf c4Text = List.replicate 201 c4ErrLine ++ List.replicate 199 c4OkLine := by
  unfold linesOf linesOfRaw
  rw [c4_raw, show c4Text.data = c4Data from rfl, c4_split]
  simp only [List.map_append, List.map_replicate]
  rw [show String.mk (trimChars c4ErrLine.data) = c4ErrLine from rfl,
    show String.mk (trimChars c4OkLine.data) = c4OkLine from rfl,
    List.filter_append, filter_ne_empty_replicate _ _ (by decide),
    filter_ne_empty_replicate _ _ (by decide)]

lemma c4_errors : (linesOf c4Text).countP lineIsError = 201 := by
  rw [c4_lines, List.countP_append, List.countP_replicate, List.countP_replicate,
    show lineIsError c4ErrLine = true from by decide,
    show lineIsError c4OkLine = false from by decide]
  simp

lemma c4_len : (linesOf c4Text).length = 400 := by
  rw [c4_lines]
  simp

/-! ### Claim theorems -/

/-- C9: `parse` fails with `InvalidInput` ("No text provided") exactly when
the input text is empty after the optional rich-text unwrap and trimming
(`rawOf`), and `analyze` fails with `InvalidInput` ("No logs provided")
exactly when `logs` is empty or absent.  Failures are `.error` values of the
`Except` model, so no partial output exists on failure. -/
theorem c9_invalid_input_exact :
    (∀ text : String, ingest text = Except.error "No text provided" ↔ rawOf text = "") ∧
    (∀ inp : AnalyzeInput, analyze inp = Except.error "No logs provided" ↔ inp.logs.getD [] = []) :=
  ⟨fun _ => ingest_error_iff, fun _ => analyze_error_iff⟩

/-- C10 (implicit): the parser's `serviceGuess` and `regionGuess` are never
the empty string: the `best || fallback` step of `pickMostCommon` returns
the sentinel instead of a falsy (empty) winner, and the sentinels are
non-empty. -/
theorem c10_guesses_never_empty (text : String) (inc : ParsedIncident)
    (h : ingest text = Except.ok inc) :
    inc.serviceGuess ≠ "" ∧ inc.regionGuess ≠ "" := by
  obtain ⟨-, rfl⟩ := ingest_ok_iff.mp h
  rw [incidentOf_serviceGuess, incidentOf_regionGuess]
  exact ⟨pickMostCommon_ne_empty _ _ (by decide), pickMostCommon_ne_empty _ _ (by decide)⟩

/-- C10 witness: a line carrying `service=""` (an extracted-but-empty quoted
value) still yields non-empty guesses. -/
theorem c10_guesses_never_empty_witness :
    (getInc (ingest "service=\"\" event")).serviceGuess ≠ "" ∧
    (getInc (ingest "service=\"\" event")).regionGuess ≠ "" :=
  c10_guesses_never_empty "service=\"\" event" (getInc (ingest "service=\"\" event")) rfl

/-- C2: on every successful analyze, severity is decided in fixed order with
first match winning: "High" iff `http_5xx ≥ 2 ∨ timeouts ≥ 2 ∨
error_rate_pct ≥ 3` (signals coerced by `getNum`, non-finite as 0),
otherwise "Medium" iff `http_5xx ≥ 1 ∨ timeouts ≥ 1 ∨ errors ≥ 1`,
otherwise "Low". -/
theorem c2_severity_rule (inp : AnalyzeInput) (out : AnalysisOutput)
    (h : analyze inp = Except.ok out) :
    (out.severity = "High" ↔ highCond inp) ∧
    (out.severity = "Medium" ↔ (¬ highCond inp ∧ medCond inp)) ∧
    (out.severity = "Low" ↔ (¬ highCond inp ∧ ¬ medCond inp)) := by
  obtain ⟨-, rfl⟩ := analyze_ok_iff.mp h
  rw [outputOf_severity]
  have hm : ("High" : String) ≠ "Medium" := by decide
  have hl : ("High" : String) ≠ "Low" := by decide
  have ml : ("Medium" : String) ≠ "Low" := by decide
  by_cases h1 : highCond inp <;> by_cases h2 : medCond inp <;>
    simp [h1, h2, hm, hl, ml, hm.symm, hl.symm, ml.symm]

/-- C2 witness: `{http_5xx: 2}` with one log line is classified High. -/
theorem c2_severity_rule_witness :
    (getOut (analyze
      { scenario := none, service := none, region := none,
        signals := [("http_5xx", JsVal.num 2)], logs := some ["a"] })).severity = "High" := by
  have h := c2_severity_rule
    { scenario := none, service := none, region := none,
      signals := [("http_5xx", JsVal.num 2)], logs := some ["a"] }
    (getOut (analyze
      { scenario := none, service := none, region := none,
        signals := [("http_5xx", JsVal.num 2)], logs := some ["a"] })) rfl
  exact h.1.mpr (Or.inl (by with_unfolding_all decide))

/-- C3: on every successful analyze, confidence starts at "Medium", is
upgraded to "High" when `logs.length ≥ 6` and `timeouts + http_5xx +
errors ≥ 2`, and the later `logs.length < 3` check overrides everything
with "Low" — fewer than 3 log lines always yields "Low". -/
theorem c3_confidence_rule (inp : AnalyzeInput) (out : AnalysisOutput)
    (h : analyze inp = Except.ok out) :
    (out.confidence =
      if (inp.logs.getD []).length < 3 then "Low"
      else if confHighCond inp then "High" else "Medium") ∧
    ((inp.logs.getD []).length < 3 → out.confidence = "Low") := by
  obtain ⟨-, rfl⟩ := analyze_ok_iff.mp h
  refine ⟨outputOf_confidence inp, fun hlt => ?_⟩
  rw [outputOf_confidence, if_pos hlt]

/-- C3 witness: two log lines force "Low" confidence even though the signals
alone would upgrade to "High". -/
theorem c3_confidence_rule_witness :
    (getOut (analyze
      { scenario := none, service := none, region := none,
        signals := [("timeouts", JsVal.num 5)], logs := some ["a", "b"] })).confidence = "Low" := by
  have h := c3_confidence_rule
    { scenario := none, service := none, region := none,
      signals := [("timeouts", JsVal.num 5)], logs := some ["a", "b"] }
    (getOut (analyze
      { scenario := none, service := none, region := none,
        signals := [("timeouts", JsVal.num 5)], logs := some ["a", "b"] })) rfl
  exact h.2 (by decide)

/-- C4 counterexample to the exact-arithmetic reading of the claim: with
201 `ERROR` lines out of 400, the binary64 product `(201/400)*1000`
evaluates to 502.49999999999994, so the program computes
`Math.round` of that as 502 and yields `error_rate_pct = 50.2`, while
`round((errors / log_lines) * 1000) / 10` in exact arithmetic is
`round(502.5)/10 = 50.3`. -/
theorem c4_exact_formula_refuted :
    (getInc (ingest c4Text)).errors = 201 ∧
    (getInc (ingest c4Text)).log_lines = 400 ∧
    (getInc (ingest c4Text)).error_rate_pct ≠
      (jsRound ((201 : ℚ) / 400 * 1000) : ℚ) / 10 := by
  have hraw : rawOf c4Text ≠ "" := by
    rw [c4_raw]
    intro h
    have h2 : c4Data.head? = some 'x' := c4_head
    rw [show c4Data = c4Text.data from rfl, h,
      show ("" : String).data = ([] : List Char) from rfl] at h2
    exact absurd h2 (by decide)
  have hok : ingest c4Text = Except.ok (incidentOf c4Text) := by
    unfold ingest
    rw [if_neg hraw]
  have hget : getInc (ingest c4Text) = incidentOf c4Text := by
    rw [hok]
    rfl
  refine ⟨?_, ?_, ?_⟩
  · rw [hget, incidentOf_errors, c4_errors]
  · rw [hget, incidentOf_log_lines, c4_len]
  · rw [hget, incidentOf_error_rate_pct, c4_errors, c4_len, if_pos (by norm_num)]
    intro hcontra
    have h2 := congrArg Rat.num hcontra
    rw [show (errorRatePctD 201 400).num = 3532510957718733 from by with_unfolding_all rfl,
      show ((jsRound ((201 : ℚ) / 400 * 1000) : ℚ) / 10).num = 503 from by
        with_unfolding_all rfl] at h2
    exact absurd h2 (by decide)

/-- C4 (amended: the formula is evaluated in IEEE-754 binary64 arithmetic,
`errorRatePctD`): on every successful parse, `error_rate_pct` equals
`Math.round((errors / log_lines) * 1000) / 10` computed with correctly
rounded binary64 division and multiplication when `log_lines > 0`, and is
exactly 0 when `log_lines = 0`. -/
theorem c4_error_rate_invariant (text : String) (inc : ParsedIncident)
    (h : ingest text = Except.ok inc) :
    (0 < inc.log_lines → inc.error_rate_pct = errorRatePctD inc.errors inc.log_lines) ∧
    (inc.log_lines = 0 → inc.error_rate_pct = 0) := by
  obtain ⟨-, rfl⟩ := ingest_ok_iff.mp h
  rw [incidentOf_error_rate_pct, incidentOf_log_lines, incidentOf_errors]
  constructor
  · intro hpos
    rw [if_pos hpos]
  · intro h0
    rw [if_neg]
    omega

/-- C4 witness: one ERROR line out of two gives `error_rate_pct =
errorRatePctD 1 2`, which is exactly 50 (every step is exact in binary64
here). -/
theorem c4_error_rate_invariant_witness :
    0 < (getInc (ingest "x ERROR a\nok line")).log_lines ∧
    (getInc (ingest "x ERROR a\nok line")).error_rate_pct =
      errorRatePctD (getInc (ingest "x ERROR a\nok line")).errors
        (getInc (ingest "x ERROR a\nok line")).log_lines ∧
    errorRatePctD 1 2 = 50 :=
  ⟨by decide,
   (c4_error_rate_invariant "x ERROR a\nok line"
     (getInc (ingest "x ERROR a\nok line")) rfl).1 (by decide),
   by with_unfolding_all rfl⟩

/-- C7: per parsed line at most one of errors/warns/infos is counted,
decided case-insensitively on the whole-word tokens " ERROR ", " WARN ",
" INFO " in that priority order; the TIMEOUT substring check is independent,
so one line can count as both an error and a timeout. -/
theorem c7_line_classification (text : String) (inc : ParsedIncident)
    (h : ingest text = Except.ok inc) :
    (inc.errors = (linesOf text).countP lineIsError ∧
     inc.warns = (linesOf text).countP lineIsWarn ∧
     inc.infos = (linesOf text).countP lineIsInfo ∧
     inc.timeouts = (linesOf text).countP lineHasTimeout) ∧
    (∀ l : String,
      (lineIsError l = strContains (upperStr l) " ERROR ") ∧
      (lineIsWarn l = (!lineIsError l && strContains (upperStr l) " WARN ")) ∧
      (lineIsInfo l =
        (!lineIsError l && !strContains (upperStr l) " WARN " &&
          strContains (upperStr l) " INFO ")) ∧
      (lineHasTimeout l = strContains (upperStr l) "TIMEOUT") ∧
      ¬(lineIsError l = true ∧ lineIsWarn l = true) ∧
      ¬(lineIsError l = true ∧ lineIsInfo l = true) ∧
      ¬(lineIsWarn l = true ∧ lineIsInfo l = true)) ∧
    (lineIsError "t ERROR upstream TIMEOUT" = true ∧
     lineHasTimeout "t ERROR upstream TIMEOUT" = true) := by
  obtain ⟨-, rfl⟩ := ingest_ok_iff.mp h
  refine ⟨⟨incidentOf_errors text, incidentOf_warns text, incidentOf_infos text,
    incidentOf_timeouts text⟩, fun l => ?_, by decide, by decide⟩
  refine ⟨rfl, rfl, rfl, rfl, ?_, ?_, ?_⟩ <;>
    · simp only [lineIsError, lineIsWarn, lineIsInfo, lineHasUpper]
      cases strContains (upperStr l) " ERROR " <;>
        cases strContains (upperStr l) " WARN " <;>
          cases strContains (upperStr l) " INFO " <;> simp

/-! Sortedness, membership and stability of the stable descending sort. -/

lemma mem_insertDesc {x y : String × Nat} {l : List (String × Nat)}
    (h : y ∈ insertDesc x l) : y = x ∨ y ∈ l := by
  induction l with
  | nil =>
    rw [insertDesc] at h
    simp at h
    exact Or.inl h
  | cons z t ih =>
    rw [insertDesc] at h
    by_cases hle : z.2 ≤ x.2
    · rw [if_pos hle] at h
      rcases List.mem_cons.mp h with h1 | h1
      · exact Or.inl h1
      · exact Or.inr h1
    · rw [if_neg hle] at h
      rcases List.mem_cons.mp h with h1 | h1
      · subst h1
        exact Or.inr (List.mem_cons_self _ _)
      · rcases ih h1 with h2 | h2
        · exact Or.inl h2
        · exact Or.inr (List.mem_cons_of_mem _ h2)

lemma pairwise_insertDesc (x : String × Nat) (l : List (String × Nat))
    (h : l.Pairwise fun a b => b.2 ≤ a.2) :
    (insertDesc x l).Pairwise fun a b => b.2 ≤ a.2 := by
  induction l with
  | nil => simp [insertDesc]
  | cons y t ih =>
    rw [insertDesc]
    rcases List.pairwise_cons.mp h with ⟨hy, ht⟩
    split
    · rename_i hle
      exact List.pairwise_cons.mpr ⟨fun z hz => by
        rcases List.mem_cons.mp hz with rfl | hz
        · exact hle
        · exact le_trans (hy z hz) hle, h⟩
    · rename_i hgt
      refine List.pairwise_cons.mpr ⟨fun z hz => ?_, ih ht⟩
      rcases mem_insertDesc hz with rfl | hz
      · exact le_of_not_le hgt
      · exact hy z hz

lemma sortCountDesc_pairwise (l : List (String × Nat)) :
    (sortCountDesc l).Pairwise fun a b => b.2 ≤ a.2 := by
  induction l with
  | nil => simp [sortCountDesc]
  | cons x t ih => exact pairwise_insertDesc x (sortCountDesc t) ih

lemma mem_sortCountDesc {y : String × Nat} {l : List (String × Nat)}
    (h : y ∈ sortCountDesc l) : y ∈ l := by
  induction l with
  | nil =>
    rw [sortCountDesc] at h
    exact h
  | cons x t ih =>
    rw [sortCountDesc] at h
    rcases mem_insertDesc h with rfl | h'
    · exact List.mem_cons_self _ _
    · exact List.mem_cons_of_mem x (ih h')

lemma filter_insertDesc (x : String × Nat) (l : List (String × Nat)) (c : Nat) :
    (insertDesc x l).filter (fun p => p.2 == c) = (x :: l).filter fun p => p.2 == c := by
  induction l with
  | nil => rfl
  | cons y t ih =>
    rw [insertDesc]
    split
    · rfl
    · rename_i hgt
      have hxy : ¬(x.2 = c ∧ y.2 = c) := by
        rintro ⟨h1, h2⟩
        exact hgt (le_of_eq (h2.trans h1.symm))
      by_cases hx : x.2 = c <;> by_cases hy : y.2 = c
      · exact absurd ⟨hx, hy⟩ hxy
      · simp [List.filter_cons, beq_iff_eq, hx, hy, ih]
      · simp [List.filter_cons, beq_iff_eq, hx, hy, ih]
      · simp [List.filter_cons, beq_iff_eq, hx, hy, ih]

lemma filter_sortCountDesc (l : List (String × Nat)) (c : Nat) :
    (sortCountDesc l).filter (fun p => p.2 == c) = l.filter fun p => p.2 == c := by
  induction l with
  | nil => rfl
  | cons x t ih =>
    rw [sortCountDesc, filter_insertDesc, List.filter_cons, List.filter_cons, ih]

/-! Every entry of the counting map has a positive count. -/

lemma foldl_bump_pos (l : List String) :
    ∀ m : List (String × Nat), (∀ p ∈ m, 0 < p.2) → ∀ p ∈ l.foldl bump m, 0 < p.2 := by
  induction l with
  | nil => exact fun m hm => hm
  | cons x t ih =>
    intro m hm
    rw [List.foldl_cons]
    refine ih (bump m x) ?_
    intro p hp
    unfold bump at hp
    split at hp
    · rcases List.mem_map.mp hp with ⟨q, hq, rfl⟩
      split
      · exact Nat.succ_pos _
      · exact hm q hq
    · rcases List.mem_append.mp hp with hp | hp
      · exact hm p hp
      · simp only [List.mem_singleton] at hp
        subst hp
        exact Nat.one_pos

lemma countsOf_pos {values : List String} {p : String × Nat} (hp : p ∈ countsOf values) :
    0 < p.2 :=
  foldl_bump_pos values [] (by simp) p hp

/-- C8: `topPatterns` is sorted descending by count, has length at most 6,
contains no zero count, and ties are broken by first-encountered tag: the
stable sort leaves the relative order inside every count class as it was in
the insertion-ordered counter map. -/
theorem c8_top_patterns_shape (text : String) (inc : ParsedIncident)
    (h : ingest text = Except.ok inc) :
    inc.topPatterns.Pairwise (fun a b => b.2 ≤ a.2) ∧
    inc.topPatterns.length ≤ 6 ∧
    (∀ p ∈ inc.topPatterns, p.2 ≠ 0) ∧
    (∀ c : Nat, (sortCountDesc (patternCountsOf text)).filter (fun p => p.2 == c) =
      (patternCountsOf text).filter fun p => p.2 == c) := by
  obtain ⟨-, rfl⟩ := ingest_ok_iff.mp h
  rw [incidentOf_topPatterns]
  refine ⟨(sortCountDesc_pairwise _).sublist (List.take_sublist _ _), List.length_take_le _ _,
    fun p hp => ?_, fun c => filter_sortCountDesc _ c⟩
  have hp' : p ∈ sortCountDesc (patternCountsOf text) := List.take_subset _ _ hp
  have h2 := countsOf_pos (mem_sortCountDesc hp')
  omega

/-- C8 witness: three lines, two tags with counts 2 and 1. -/
theorem c8_top_patterns_shape_witness :
    (getInc (ingest "a downstream x\nb DOWNSTREAM y\nc upstream timeout z")).topPatterns.Pairwise
      (fun a b => b.2 ≤ a.2) ∧
    (∀ p ∈ (getInc (ingest "a downstream x\nb DOWNSTREAM y\nc upstream timeout z")).topPatterns,
      p.2 ≠ 0) :=
  have h := c8_top_patterns_shape "a downstream x\nb DOWNSTREAM y\nc upstream timeout z"
    (getInc (ingest "a downstream x\nb DOWNSTREAM y\nc upstream timeout z")) rfl
  ⟨h.1, h.2.2.1⟩

/-- C1 counterexample: on the spec's own end-to-end scenario input the
pipeline's severity is "High", not "Medium" as the claim states — the
parser derives `error_rate_pct = 50` (1 error over 2 lines), and the
analyzer's `error_rate_pct ≥ 3` High rule fires before the `http_5xx ≥ 1`
Medium rule is reached. -/
theorem c1_severity_not_medium : sevOfPipeline c1Text ≠ some "Medium" := by
  intro h
  rw [show sevOfPipeline c1Text = some "High" from by with_unfolding_all rfl] at h
  exact absurd h (by decide)

/-- C1 (amended: severity is "High" because `error_rate_pct = 50 ≥ 3`): the
parser yields the claimed service/region/counters/patterns, and feeding its
output into the analyzer yields severity "High" and a root-cause sentence
containing both the upstream-timeout and the circuit-breaker clauses. -/
theorem c1_end_to_end_amended :
    ingest c1Text = Except.ok
      { serviceGuess := "auth", regionGuess := "eu10",
        startTs := some "2026-01-06T13:01:02.114Z",
        endTs := some "2026-01-06T13:02:00.000Z",
        topPatterns := [("upstream_timeout", 1), ("circuit_breaker_open", 1)],
        sampleLines := [c1Line1, c1Line2],
        log_lines := 2, errors := 1, warns := 0, infos := 0, timeouts := 1,
        http_5xx := 1, error_rate_pct := 50 } ∧
    sevOfPipeline c1Text = some "High" ∧
    ((rcOfPipeline c1Text).map fun rc =>
      strContains rc clauseUpstream && strContains rc clauseCircuit) = some true := by
  refine ⟨?_, ?_, ?_⟩
  · with_unfolding_all rfl
  · with_unfolding_all rfl
  · with_unfolding_all decide

/-! ### The counting map as first-occurrence keys with multiplicities

`countsOf values` is shown to be exactly the list of distinct values in
first-encounter order, each paired with its multiplicity; the `pickBest`
loop then returns the first entry attaining the maximal count.
-/

lemma mem_firstOccsAux {a : String} :
    ∀ {l seen : List String}, a ∈ firstOccsAux seen l ↔ a ∈ l ∧ a ∉ seen := by
  intro l
  induction l with
  | nil => intro seen; simp [firstOccsAux]
  | cons x t ih =>
    intro seen
    rw [firstOccsAux]
    by_cases hx : x ∈ seen
    · rw [if_pos hx, ih]
      constructor
      · rintro ⟨h1, h2⟩
        exact ⟨List.mem_cons_of_mem x h1, h2⟩
      · rintro ⟨h1, h2⟩
        rcases List.mem_cons.mp h1 with rfl | h1
        · exact absurd hx h2
        · exact ⟨h1, h2⟩
    · rw [if_neg hx]
      constructor
      · intro h
        rcases List.mem_cons.mp h with rfl | h
        · exact ⟨List.mem_cons_self _ _, hx⟩
        · rcases ih.mp h with ⟨h1, h2⟩
          refine ⟨List.mem_cons_of_mem x h1, fun hs => h2 (List.mem_cons_of_mem x hs)⟩
      · rintro ⟨h1, h2⟩
        rcases List.mem_cons.mp h1 with rfl | h1
        · exact List.mem_cons_self _ _
        · by_cases hax : a = x
          · subst hax
            exact List.mem_cons_self _ _
          · refine List.mem_cons_of_mem x (ih.mpr ⟨h1, fun hs => ?_⟩)
            rcases List.mem_cons.mp hs with h' | h'
            · exact hax h'
            · exact h2 h'

lemma firstOccsAux_seen_congr :
    ∀ (l : List String) {s1 s2 : List String}, (∀ a, a ∈ s1 ↔ a ∈ s2) →
      firstOccsAux s1 l = firstOccsAux s2 l := by
  intro l
  induction l with
  | nil => intro s1 s2 _; rfl
  | cons x t ih =>
    intro s1 s2 hs
    rw [firstOccsAux, firstOccsAux]
    by_cases hx : x ∈ s1
    · rw [if_pos hx, if_pos ((hs x).mp hx)]
      exact ih hs
    · rw [if_neg hx, if_neg (fun h => hx ((hs x).mpr h))]
      refine congrArg (x :: ·) (ih fun a => ?_)
      constructor
      · intro h
        rcases List.mem_cons.mp h with rfl | h
        · exact List.mem_cons_self _ _
        · exact List.mem_cons_of_mem x ((hs a).mp h)
      · intro h
        rcases List.mem_cons.mp h with rfl | h
        · exact List.mem_cons_self _ _
        · exact List.mem_cons_of_mem x ((hs a).mpr h)

lemma bump_of_mem {m : List (String × Nat)} {x : String} (h : x ∈ m.map Prod.fst) :
    bump m x = m.map fun p => if p.1 = x then (p.1, p.2 + 1) else p := by
  rw [bump, if_pos h]

lemma bump_of_not_mem {m : List (String × Nat)} {x : String} (h : x ∉ m.map Prod.fst) :
    bump m x = m ++ [(x, 1)] := by
  rw [bump, if_neg h]

lemma foldl_bump_eq (l : List String) :
    ∀ m : List (String × Nat),
      l.foldl bump m =
        m.map (fun p => (p.1, p.2 + l.count p.1)) ++
          ((firstOccsAux (m.map Prod.fst) l).map fun k => (k, l.count k)) := by
  induction l with
  | nil =>
    intro m
    simp [firstOccsAux]
  | cons x t ih =>
    intro m
    rw [List.foldl_cons]
    by_cases hx : x ∈ m.map Prod.fst
    · rw [bump_of_mem hx, ih]
      have hkeys : (m.map fun p => if p.1 = x then (p.1, p.2 + 1) else p).map Prod.fst =
          m.map Prod.fst := by
        rw [List.map_map]
        refine List.map_congr_left fun p _ => ?_
        by_cases hpx : p.1 = x <;> simp [hpx]
      rw [hkeys]
      rw [show firstOccsAux (m.map Prod.fst) (x :: t) = firstOccsAux (m.map Prod.fst) t from by
        rw [firstOccsAux, if_pos hx]]
      congr 1
      · rw [List.map_map]
        refine List.map_congr_left fun p _ => ?_
        by_cases hpx : p.1 = x
        · simp only [Function.comp_apply, if_pos hpx, List.count_cons, hpx,
            beq_self_eq_true, if_true, Prod.mk.injEq, true_and]
          omega
        · have hxp : ¬ (x == p.1) = true := by
            simp only [beq_iff_eq]
            exact fun h => hpx h.symm
          simp only [Function.comp_apply, if_neg hpx, List.count_cons, if_neg hxp,
            Prod.mk.injEq, true_and]
          omega
      · refine List.map_congr_left fun k hk => ?_
        have hknot := (mem_firstOccsAux.mp hk).2
        have hkx : ¬ (x == k) = true := by
          simp only [beq_iff_eq]
          rintro rfl
          exact hknot hx
        simp only [List.count_cons, if_neg hkx, Prod.mk.injEq, true_and]
        omega
    · rw [bump_of_not_mem hx, ih]
      have hseen : (m ++ [((x : String), (1 : Nat))]).map Prod.fst = m.map Prod.fst ++ [x] := by
        simp
      rw [hseen]
      rw [firstOccsAux_seen_congr t
        (show ∀ a, a ∈ m.map Prod.fst ++ [x] ↔ a ∈ x :: m.map Prod.fst from fun a => by
          simp [or_comm])]
      rw [show firstOccsAux (m.map Prod.fst) (x :: t) =
            x :: firstOccsAux (x :: m.map Prod.fst) t from by
        rw [firstOccsAux, if_neg hx]]
      rw [List.map_append, List.map_cons]
      rw [List.append_assoc]
      congr 1
      · refine List.map_congr_left fun p hp => ?_
        have hpx : ¬ (x == p.1) = true := by
          simp only [beq_iff_eq]
          rintro rfl
          exact hx (List.mem_map.mpr ⟨p, hp, rfl⟩)
        simp only [List.count_cons, if_neg hpx, Prod.mk.injEq, true_and]
        omega
      · simp only [List.map_cons, List.map_nil, List.singleton_append]
        congr 1
        · simp only [List.count_cons, beq_self_eq_true, if_true, Prod.mk.injEq, true_and]
          omega
        · refine List.map_congr_left fun k hk => ?_
          have hknot := (mem_firstOccsAux.mp hk).2
          have hkx : ¬ (x == k) = true := by
            simp only [beq_iff_eq]
            rintro rfl
            exact hknot (List.mem_cons_self _ _)
          simp only [List.count_cons, if_neg hkx, Prod.mk.injEq, true_and]
          omega

lemma countsOf_eq (values : List String) :
    countsOf values = (firstOccs values).map fun k => (k, values.count k) := by
  rw [countsOf, firstOccs, foldl_bump_eq]
  simp

lemma mem_countsOf {values : List String} {p : String × Nat} :
    p ∈ countsOf values ↔ p.1 ∈ values ∧ p.2 = values.count p.1 := by
  rw [countsOf_eq]
  constructor
  · intro h
    rcases List.mem_map.mp h with ⟨k, hk, rfl⟩
    have := mem_firstOccsAux.mp hk
    exact ⟨this.1, rfl⟩
  · rintro ⟨h1, h2⟩
    refine List.mem_map.mpr ⟨p.1, mem_firstOccsAux.mpr ⟨h1, List.not_mem_nil _⟩, ?_⟩
    rw [← h2]

/-! The `best`/`bestCount` loop returns the first entry with maximal count. -/

lemma pickBest_cons (q : String × Nat) (t : List (String × Nat)) (init : String × Nat) :
    pickBest (q :: t) init = pickBest t (if init.2 < q.2 then q else init) := rfl

lemma pickBest_le (m : List (String × Nat)) :
    ∀ init : String × Nat,
      init.2 ≤ (pickBest m init).2 ∧ ∀ p ∈ m, p.2 ≤ (pickBest m init).2 := by
  induction m with
  | nil =>
    intro init
    exact ⟨le_refl _, by simp⟩
  | cons q t ih =>
    intro init
    rw [pickBest_cons]
    have h := ih (if init.2 < q.2 then q else init)
    have hinit : init.2 ≤ (if init.2 < q.2 then q else init).2 := by
      split
      · exact le_of_lt ‹_›
      · exact le_refl _
    have hq : q.2 ≤ (if init.2 < q.2 then q else init).2 := by
      split
      · exact le_refl _
      · exact le_of_not_lt ‹_›
    refine ⟨le_trans hinit h.1, fun p hp => ?_⟩
    rcases List.mem_cons.mp hp with rfl | hp
    · exact le_trans hq h.1
    · exact h.2 p hp

lemma pickBest_of_all_le (m : List (String × Nat)) :
    ∀ init : String × Nat, (∀ q ∈ m, q.2 ≤ init.2) → pickBest m init = init := by
  induction m with
  | nil => intro init _; rfl
  | cons q t ih =>
    intro init hle
    rw [pickBest_cons, if_neg (not_lt.mpr (hle q (List.mem_cons_self _ _)))]
    exact ih init fun r hr => hle r (List.mem_cons_of_mem q hr)

lemma pickBest_split (m : List (String × Nat)) :
    ∀ (init q : String × Nat), q ∈ m → init.2 < q.2 →
      ∃ l1 l2, m = l1 ++ (pickBest m init) :: l2 ∧
        (∀ p ∈ l1, p.2 < (pickBest m init).2) ∧ init.2 < (pickBest m init).2 := by
  induction m with
  | nil =>
    intro init q hq
    exact absurd hq (List.not_mem_nil q)
  | cons p t ih =>
    intro init q hq hlt
    rw [pickBest_cons]
    by_cases hp : init.2 < p.2
    · rw [if_pos hp]
      by_cases h2 : ∃ r ∈ t, p.2 < r.2
      · obtain ⟨r, hr, hrlt⟩ := h2
        obtain ⟨l1, l2, heq, hpre, hlt2⟩ := ih p r hr hrlt
        refine ⟨p :: l1, l2, by rw [List.cons_append, ← heq], fun s hs => ?_, lt_trans hp hlt2⟩
        rcases List.mem_cons.mp hs with rfl | hs
        · exact hlt2
        · exact hpre s hs
      · push_neg at h2
        rw [pickBest_of_all_le t p h2]
        exact ⟨[], t, rfl, by simp, hp⟩
    · rw [if_neg hp]
      have hqt : q ∈ t := by
        rcases List.mem_cons.mp hq with rfl | h
        · exact absurd hlt hp
        · exact h
      obtain ⟨l1, l2, heq, hpre, hlt2⟩ := ih init q hqt hlt
      refine ⟨p :: l1, l2, by rw [List.cons_append, ← heq], fun s hs => ?_, hlt2⟩
      rcases List.mem_cons.mp hs with rfl | hs
      · exact lt_of_le_of_lt (not_lt.mp hp) hlt2
      · exact hpre s hs

/-- `pickMostCommon` refines the spec's "most frequent value, first-seen
wins ties" on non-empty inputs with no empty-string value. -/
lemma pickMostCommon_spec (values : List String) (fb : String)
    (hne : values ≠ []) (hnz : ∀ v ∈ values, v ≠ "") :
    mostCommonSpec values = some (pickMostCommon values fb) := by
  match values, hne with
  | v0 :: t, _ =>
    have hv0 : v0 ∈ v0 :: t := List.mem_cons_self _ _
    have hv0c : ((v0, (v0 :: t).count v0) : String × Nat) ∈ countsOf (v0 :: t) :=
      mem_countsOf.mpr ⟨hv0, rfl⟩
    have hv0pos : ((v0 : String), (0 : Nat)).2 < (v0, (v0 :: t).count v0).2 :=
      List.count_pos_iff.mpr hv0
    obtain ⟨l1, l2, heq, hpre, hpos⟩ :=
      pickBest_split (countsOf (v0 :: t)) (v0, 0) (v0, (v0 :: t).count v0) hv0c hv0pos
    set r := pickBest (countsOf (v0 :: t)) ((v0 : String), (0 : Nat)) with hr
    have hrm : r ∈ countsOf (v0 :: t) := by
      rw [heq]
      exact List.mem_append_right _ (List.mem_cons_self _ _)
    have hrc := mem_countsOf.mp hrm
    have hmax : ∀ p ∈ countsOf (v0 :: t), p.2 ≤ r.2 := (pickBest_le _ _).2
    have hpmc : pickMostCommon (v0 :: t) fb = r.1 := by
      simp only [pickMostCommon]
      rw [← hr, if_neg (hnz _ hrc.1)]
    rw [hpmc]
    have hkeys : firstOccs (v0 :: t) = (countsOf (v0 :: t)).map Prod.fst := by
      rw [countsOf_eq, List.map_map]
      exact (List.map_id _).symm
    have hpred : ((v0 :: t).all fun v =>
        decide ((v0 :: t).count v ≤ (v0 :: t).count r.1)) = true := by
      rw [List.all_eq_true]
      intro v hv
      have hvm : ((v, (v0 :: t).count v) : String × Nat) ∈ countsOf (v0 :: t) :=
        mem_countsOf.mpr ⟨hv, rfl⟩
      have hle := hmax _ hvm
      rw [hrc.2] at hle
      exact decide_eq_true hle
    have hnone :
        ((l1.map Prod.fst).find? fun k =>
          (v0 :: t).all fun v => decide ((v0 :: t).count v ≤ (v0 :: t).count k)) = none := by
      rw [List.find?_eq_none]
      intro k hk
      rcases List.mem_map.mp hk with ⟨s, hs, rfl⟩
      have hsm : s ∈ countsOf (v0 :: t) := by
        rw [heq]
        exact List.mem_append_left _ hs
      have hs2 := (mem_countsOf.mp hsm).2
      have hslt : (v0 :: t).count s.1 < (v0 :: t).count r.1 := by
        rw [← hs2, ← hrc.2]
        exact hpre s hs
      intro hall
      rw [List.all_eq_true] at hall
      have hler := hall _ hrc.1
      rw [decide_eq_true_eq] at hler
      omega
    rw [mostCommonSpec, hkeys, heq, List.map_append, List.map_cons, List.find?_append,
      hnone, Option.none_or]
    exact List.find?_cons_of_pos _ hpred

lemma truthyVal_ne_empty {o : Option String} {v : String} (h : truthyVal o = some v) :
    v ≠ "" := by
  match o with
  | none => exact absurd h (by simp [truthyVal])
  | some s =>
    rw [truthyVal] at h
    split at h
    · exact absurd h (by simp)
    · rename_i hne
      cases h
      exact hne

lemma servicesOf_ne_empty (text : String) : ∀ v ∈ servicesOf text, v ≠ "" := by
  intro v hv
  rcases List.mem_filterMap.mp hv with ⟨l, _, hl⟩
  exact truthyVal_ne_empty hl

lemma regionsOf_ne_empty (text : String) : ∀ v ∈ regionsOf text, v ≠ "" := by
  intro v hv
  rcases List.mem_filterMap.mp hv with ⟨l, _, hl⟩
  exact truthyVal_ne_empty hl

/-- C5 counterexample to "…and only then": a line whose region value is the
literal string "unknown" makes `regionGuess` the sentinel although a region
value *was* extracted. -/
theorem c5_sentinel_without_missing :
    regionsOf "region=unknown ok" = ["unknown"] ∧
    (getInc (ingest "region=unknown ok")).regionGuess = "unknown" := by
  constructor
  · decide
  · decide

/-- C5 (amended: the sentinel is returned when no values were found, but can
also coincide with an extracted value equal to the sentinel string):
`serviceGuess`/`regionGuess` are the most frequent extracted values with the
first-seen value winning ties (`mostCommonSpec`), and the sentinel is
returned when no values were found. -/
theorem c5_most_common_first_seen (text : String) (inc : ParsedIncident)
    (h : ingest text = Except.ok inc) :
    (servicesOf text = [] → inc.serviceGuess = "BTP Service (unknown)") ∧
    (servicesOf text ≠ [] → mostCommonSpec (servicesOf text) = some inc.serviceGuess) ∧
    (regionsOf text = [] → inc.regionGuess = "unknown") ∧
    (regionsOf text ≠ [] → mostCommonSpec (regionsOf text) = some inc.regionGuess) := by
  obtain ⟨-, rfl⟩ := ingest_ok_iff.mp h
  rw [incidentOf_serviceGuess, incidentOf_regionGuess]
  exact ⟨fun he => by rw [he]; rfl,
    fun hne => pickMostCommon_spec _ _ hne (servicesOf_ne_empty text),
    fun he => by rw [he]; rfl,
    fun hne => pickMostCommon_spec _ _ hne (regionsOf_ne_empty text)⟩

/-- C5 witness: three service values with a tie broken by first occurrence. -/
theorem c5_most_common_first_seen_witness :
    servicesOf "service=a x\nservice=b y\nservice=a z" ≠ [] ∧
    mostCommonSpec (servicesOf "service=a x\nservice=b y\nservice=a z") =
      some (getInc (ingest "service=a x\nservice=b y\nservice=a z")).serviceGuess :=
  ⟨by decide,
   (c5_most_common_first_seen "service=a x\nservice=b y\nservice=a z"
     (getInc (ingest "service=a x\nservice=b y\nservice=a z")) rfl).2.1 (by decide)⟩

/-- C6 counterexample: the source regex makes the fractional-seconds part
optional, so a timestamp *without* milliseconds is still recognized: on this
input `timeWindow.start` is set although no line contains a timestamp of the
spec's "with-milliseconds" shape. -/
theorem c6_millis_not_required :
    (getInc (ingest "boot at 2026-01-06T13:01:02Z ok")).startTs = some "2026-01-06T13:01:02Z" ∧
    ((linesOf "boot at 2026-01-06T13:01:02Z ok").all fun l => (isoMillisFromLine l).isNone) = true := by
  constructor
  · decide
  · decide

/-- C6 (amended: fractional seconds optional): `timeWindow.start` is the
first timestamp found in document order, `timeWindow.end` the last, and both
are `none` exactly when no line contains a timestamp the source regex
recognizes. -/
theorem c6_time_window_first_last (text : String) (inc : ParsedIncident)
    (h : ingest text = Except.ok inc) :
    inc.startTs = (timestampsOf text).head? ∧
    inc.endTs = (timestampsOf text).getLast? ∧
    (inc.startTs = none ↔ ∀ l ∈ linesOf text, safeIsoFromLine l = none) ∧
    (inc.endTs = none ↔ ∀ l ∈ linesOf text, safeIsoFromLine l = none) := by
  obtain ⟨-, rfl⟩ := ingest_ok_iff.mp h
  rw [incidentOf_startTs, incidentOf_endTs]
  refine ⟨rfl, rfl, ?_, ?_⟩
  · rw [List.head?_eq_none_iff]
    unfold timestampsOf
    exact List.filterMap_eq_nil_iff
  · rw [List.getLast?_eq_none_iff]
    unfold timestampsOf
    exact List.filterMap_eq_nil_iff

/-- C6 witness: two timestamped lines around one without a timestamp. -/
theorem c6_time_window_first_last_witness :
    (getInc (ingest "a 2026-01-06T13:01:02.114Z\nmid line\nb 2026-01-06T13:02:00.000Z")).startTs =
      (timestampsOf "a 2026-01-06T13:01:02.114Z\nmid line\nb 2026-01-06T13:02:00.000Z").head? ∧
    (getInc (ingest "a 2026-01-06T13:01:02.114Z\nmid line\nb 2026-01-06T13:02:00.000Z")).endTs =
      (timestampsOf "a 2026-01-06T13:01:02.114Z\nmid line\nb 2026-01-06T13:02:00.000Z").getLast? :=
  have h := c6_time_window_first_last
    "a 2026-01-06T13:01:02.114Z\nmid line\nb 2026-01-06T13:02:00.000Z"
    (getInc (ingest "a 2026-01-06T13:01:02.114Z\nmid line\nb 2026-01-06T13:02:00.000Z")) rfl
  ⟨h.1, h.2.1⟩

/-- C7 witness: a single line both classified as an error and counted as a
timeout. -/
theorem c7_line_classification_witness :
    ((getInc (ingest "t ERROR upstream TIMEOUT")).errors =
      (linesOf "t ERROR upstream TIMEOUT").countP lineIsError ∧
     (getInc (ingest "t ERROR upstream TIMEOUT")).warns =
      (linesOf "t ERROR upstream TIMEOUT").countP lineIsWarn ∧
     (getInc (ingest "t ERROR upstream TIMEOUT")).infos =
      (linesOf "t ERROR upstream TIMEOUT").countP lineIsInfo ∧
     (getInc (ingest "t ERROR upstream TIMEOUT")).timeouts =
      (linesOf "t ERROR upstream TIMEOUT").countP lineHasTimeout) ∧
    (lineIsError "t ERROR upstream TIMEOUT" = true ∧
     lineHasTimeout "t ERROR upstream TIMEOUT" = true) :=
  have h := c7_line_classification "t ERROR upstream TIMEOUT"
    (getInc (ingest "t ERROR upstream TIMEOUT")) rfl
  ⟨h.1, h.2.2⟩

end BtpOps
